import Mathlib

/-!
Verification of the tachi-fetch core algorithms.

Shallow embedding of the Rust sources:
- `src/display.rs` : EDID binary decoder (`parse_edid_resolution`)
- `src/proc.rs`    : single-pass `/proc/meminfo` scanner (`parse_meminfo`)
- `src/os.rs`      : `/etc/os-release` name extraction and CPU label building
- `build.rs`       : generated logo table lookup (`find_logo`, which uses the
  branchless `slice::binary_search_by` of the Rust standard library) and the
  build-time `calculate_max_line_length`
- `src/main.rs`    : two-column compositor row rendering
- `src/shell.rs`, `src/theme.rs` : worker-thread join fallbacks

Byte buffers are modelled as `List Nat` (each entry a byte value), strings that
the code manipulates character-wise as `List Char` (the relevant inputs are
ASCII, where Rust byte positions and char positions coincide).  Loops whose
index advances non-structurally are given explicit fuel, always called with
enough fuel to cover the source's `while` loop.  `u64` multiplication is
reduced modulo `2 ^ 64` (release-mode wrapping semantics).
-/

namespace TachiFetch

/-- Byte access `data[i]`; the sources index only after a bounds check, so the
default value `0` is never observable in guarded positions. -/
def byteAt (data : List Nat) (i : Nat) : Nat := data.getD i 0

/-- Bytes of a string literal (ASCII code points). -/
def strBytes (s : String) : List Nat := s.data.map Char.toNat

/-! ## EDID binary decoder (`src/display.rs`) -/

/-- The fixed 8-byte EDID magic header `00 FF FF FF FF FF FF 00`. -/
def EDID_HEADER : List Nat := [0x00, 0xFF, 0xFF, 0xFF, 0xFF, 0xFF, 0xFF, 0x00]

/-- `EDID_SIZE` from display.rs. -/
def EDID_SIZE : Nat := 128

/-- `let h_res = (((edid[58] as u16) & 0xF0) << 4) + (edid[56] as u16)`. -/
def edidH (edid : List Nat) : Nat :=
  ((byteAt edid 58 &&& 0xF0) <<< 4) + byteAt edid 56

/-- `let v_res = (((edid[58] as u16) & 0x0F) << 8) + (edid[57] as u16)`. -/
def edidV (edid : List Nat) : Nat :=
  ((byteAt edid 58 &&& 0x0F) <<< 8) + byteAt edid 57

/-- `parse_edid_resolution` from display.rs.  The source formats the result as
the string `"{h}x{v}"`; the embedding returns the pair `(h_res, v_res)`. -/
def parse_edid_resolution (edid : List Nat) : Option (Nat × Nat) :=
  if edid.length < EDID_SIZE ∨ edid.take 8 ≠ EDID_HEADER then none
  else if 0 < edidH edid ∧ 0 < edidV edid then some (edidH edid, edidV edid)
  else none

/-- A 128-byte buffer carrying the magic header and the split low-byte /
high-nibble encoding of `(h, v)` described by the spec (low byte of `h` at
byte 56, low byte of `v` at byte 57, high nibble of `h` in the upper nibble of
byte 58, high nibble of `v` in the lower nibble); all other bytes zero. -/
def encodeEdid (h v : Nat) : List Nat :=
  EDID_HEADER ++ List.replicate 48 0 ++
    [h % 256, v % 256, (h / 256) * 16 + v / 256] ++ List.replicate 69 0

/-! ## `/proc/meminfo` scanner (`src/proc.rs`, `parse_meminfo`) -/

/-- `MemTotal:` tag bytes. -/
def memTotalTag : List Nat := strBytes "MemTotal:"

/-- `MemFree:` tag bytes. -/
def memFreeTag : List Nat := strBytes "MemFree:"

/-- `MemAvailable:` tag bytes. -/
def memAvailableTag : List Nat := strBytes "MemAvailable:"

/-- The source's tag test at a position:
`pos + tag.len() < data.len() && &data[pos..pos + tag.len()] == tag`. -/
def tagMatch (data : List Nat) (pos : Nat) (tag : List Nat) : Bool :=
  decide (pos + tag.length < data.length) &&
    decide ((data.drop pos).take tag.length = tag)

/-- `while pos < data.len() && (data[pos] == b' ' || data[pos] == b'\t')`. -/
def skipWs (data : List Nat) (pos : Nat) (fuel : Nat) : Nat :=
  match fuel with
  | 0 => pos
  | f + 1 =>
    if pos < data.length ∧ (byteAt data pos = 32 ∨ byteAt data pos = 9) then
      skipWs data (pos + 1) f
    else pos

/-- `while pos < data.len() && data[pos] >= b'0' && data[pos] <= b'9'`. -/
def digitsEnd (data : List Nat) (pos : Nat) (fuel : Nat) : Nat :=
  match fuel with
  | 0 => pos
  | f + 1 =>
    if pos < data.length ∧ 48 ≤ byteAt data pos ∧ byteAt data pos ≤ 57 then
      digitsEnd data (pos + 1) f
    else pos

/-- `while pos < data.len() && data[pos] != b'\n'`. -/
def skipToNl (data : List Nat) (pos : Nat) (fuel : Nat) : Nat :=
  match fuel with
  | 0 => pos
  | f + 1 =>
    if pos < data.length ∧ byteAt data pos ≠ 10 then
      skipToNl data (pos + 1) f
    else pos

/-- Numeric value of a run of ASCII digit bytes. -/
def digitsVal (ds : List Nat) : Nat :=
  ds.foldl (fun acc d => acc * 10 + (d - 48)) 0

/-- `2 ^ 64`, the `u64` modulus. -/
def U64MOD : Nat := 2 ^ 64

/-- The source's `if let Ok(val) = s.parse::<u64>() { field = val * 1024 }`
applied to the digit slice `data[start..stop]`: `str::parse::<u64>` fails on an
empty slice or on overflow, leaving the field at its old value; on success the
kB value is converted to bytes (wrapping `u64` multiplication). -/
def parseKb (data : List Nat) (start stop : Nat) (old : Nat) : Nat :=
  let ds := (data.drop start).take (stop - start)
  if ds ≠ [] ∧ digitsVal ds < U64MOD then (digitsVal ds * 1024) % U64MOD else old

/-- The scanning loop of `parse_meminfo`: tries `MemTotal:`, `MemAvailable:`
and `MemFree:` (each only while its field is still 0) at the current position,
otherwise skips to the next line and exits early once `total` and one of
`available`/`free` are set.  Returns `(total, free, available)`.  Fuel
`data.length + 1` covers the loop because `pos` strictly increases. -/
def meminfoLoop (data : List Nat) (fuel pos total free avail : Nat) :
    Nat × Nat × Nat :=
  match fuel with
  | 0 => (total, free, avail)
  | f + 1 =>
    if pos < data.length then
      if total = 0 ∧ tagMatch data pos memTotalTag then
        let p1 := skipWs data (pos + memTotalTag.length) data.length
        let p2 := digitsEnd data p1 data.length
        meminfoLoop data f p2 (parseKb data p1 p2 total) free avail
      else if avail = 0 ∧ tagMatch data pos memAvailableTag then
        let p1 := skipWs data (pos + memAvailableTag.length) data.length
        let p2 := digitsEnd data p1 data.length
        meminfoLoop data f p2 total free (parseKb data p1 p2 avail)
      else if free = 0 ∧ tagMatch data pos memFreeTag then
        let p1 := skipWs data (pos + memFreeTag.length) data.length
        let p2 := digitsEnd data p1 data.length
        meminfoLoop data f p2 total (parseKb data p1 p2 free) avail
      else
        let p := skipToNl data pos data.length + 1
        if 0 < total ∧ (0 < avail ∨ 0 < free) then (total, free, avail)
        else meminfoLoop data f p total free avail
    else (total, free, avail)

/-- The field-extraction pass of `parse_meminfo`. -/
def meminfoScan (data : List Nat) : Nat × Nat × Nat :=
  meminfoLoop data (data.length + 1) 0 0 0 0

/-- `parse_meminfo` from proc.rs: scans the buffer, then
`free_mem = if available > 0 { available } else { free }` and
`used = if total > free_mem { total - free_mem } else { 0 }`;
returns `(used, total)` in bytes. -/
def parse_meminfo (data : List Nat) : Nat × Nat :=
  let s := meminfoScan data
  let free_mem := if 0 < s.2.2 then s.2.2 else s.2.1
  (if free_mem < s.1 then s.1 - free_mem else 0, s.1)

/-! ## Substring search (`memchr::memmem::find`, `memrchr`) -/

/-- Whether `pat` occurs in `data` starting at position `i`. -/
def matchAtPos {α : Type} [DecidableEq α] (data pat : List α) (i : Nat) : Bool :=
  decide ((data.drop i).take pat.length = pat)

/-- Scan for the first occurrence of `pat` at positions `i, i+1, …`. -/
def memmemFrom {α : Type} [DecidableEq α] (data pat : List α) (i fuel : Nat) :
    Option Nat :=
  match fuel with
  | 0 => none
  | f + 1 =>
    if i + pat.length ≤ data.length then
      if matchAtPos data pat i then some i else memmemFrom data pat (i + 1) f
    else none

/-- `memchr::memmem::find(data, pat)`: index of the first occurrence of `pat`
anywhere in `data`. -/
def memmemFind {α : Type} [DecidableEq α] (data pat : List α) : Option Nat :=
  memmemFrom data pat 0 (data.length + 1)

/-- `memchr::memrchr(c, l)`: index of the last occurrence of `c` in `l`. -/
def rlastIdx {α : Type} [DecidableEq α] (l : List α) (c : α) : Option Nat :=
  match l with
  | [] => none
  | a :: r =>
    match rlastIdx r c with
    | some i => some (i + 1)
    | none => if a = c then some 0 else none

/-- Position `i` is a true line start of `data`: the buffer start, or preceded
by a newline byte.  (Vocabulary of the spec's scanner guarantee.) -/
def lineStart (data : List Nat) (i : Nat) : Prop :=
  i = 0 ∨ byteAt data (i - 1) = 10

instance (data : List Nat) (i : Nat) : Decidable (lineStart data i) := by
  unfold lineStart; infer_instance

/-! ## `/etc/os-release` name extraction (`src/os.rs`, `get_distribution_name`)

Only the content-driven part is embedded (the part that runs when
`/etc/os-release` is readable); the marker-file fallbacks are I/O.  The source
converts the selected byte slice to `&str` (UTF-8 validation) and `trim`s it;
the embedding keeps the byte slice and trims ASCII whitespace, which coincides
with the source on ASCII content such as the inputs considered here. -/

/-- `NAME=` pattern bytes. -/
def nameTag : List Nat := strBytes "NAME="

/-- `ID=` pattern bytes. -/
def idTag : List Nat := strBytes "ID="

/-- ASCII whitespace bytes (the ASCII part of Rust `str::trim`). -/
def isWsByte (b : Nat) : Bool := b = 32 || b = 9 || b = 10 || b = 13

/-- Trim ASCII whitespace from both ends of a byte list. -/
def trimBytes (l : List Nat) : List Nat :=
  ((l.dropWhile isWsByte).reverse.dropWhile isWsByte).reverse

/-- ASCII uppercase for the first character of the `ID=` fallback
(`char::to_uppercase`, restricted to ASCII). -/
def upperByte (b : Nat) : Nat := if 97 ≤ b ∧ b ≤ 122 then b - 32 else b

/-- The `ID=` fallback branch: trim, strip all surrounding `"` quotes
(`trim_matches('"')`), capitalize the first character and append " Linux";
an empty id yields "Linux". -/
def idBranchName (slice : List Nat) : List Nat :=
  let dq := ((((trimBytes slice).dropWhile (fun b => b = 34)).reverse.dropWhile
      (fun b => b = 34)).reverse)
  match dq with
  | [] => strBytes "Linux"
  | c :: rest => upperByte c :: rest ++ strBytes " Linux"

/-- The content-driven part of `get_distribution_name`: find the first
occurrence of `NAME=` anywhere in the buffer (no line-start check); slice to
the next newline; strip one pair of surrounding quotes; trim.  Only when
`NAME=` is absent anywhere, fall back to the first occurrence of `ID=`.
`none` means the function falls through to the marker-file checks. -/
def osReleaseName (data : List Nat) : Option (List Nat) :=
  match memmemFind data nameTag with
  | some pos =>
    let start := pos + nameTag.length
    match (data.drop start).findIdx? (fun b => b == 10) with
    | some stop =>
      let name := (data.drop start).take stop
      let name :=
        if 2 ≤ name.length ∧ name.headD 0 = 34 ∧ name.getLastD 0 = 34 then
          (name.drop 1).dropLast
        else name
      some (trimBytes name)
    | none => none
  | none =>
    match memmemFind data idTag with
    | some pos =>
      let start := pos + idTag.length
      match (data.drop start).findIdx? (fun b => b == 10) with
      | some stop => some (idBranchName ((data.drop start).take stop))
      | none => none
    | none => none

/-! ## CPU label (`src/os.rs`, `get_cpu_info`) -/

/-- The `-Core` marker searched with `memmem::find`. -/
def coreMarker : List Char := "-Core".data

/-- `b >= b'0' && b <= b'9'` on the model's characters. -/
def isDigitCh (c : Char) : Bool := c.isDigit

/-- The model-name stripping of `get_cpu_info`: at the first occurrence of
`-Core`, look for the last space in the text before it; if the run between
that space and the marker is non-empty and purely numeric, truncate at the
space, otherwise truncate at the marker; with no marker keep the whole
(already trimmed) model string. -/
def stripCoreSuffix (model : List Char) : List Char :=
  match memmemFind model coreMarker with
  | none => model
  | some coreIdx =>
    match rlastIdx (model.take coreIdx) ' ' with
    | some lastSpace =>
      let pc := (model.take coreIdx).drop (lastSpace + 1)
      if pc ≠ [] ∧ pc.all isDigitCh then model.take lastSpace
      else model.take coreIdx
    | none => model.take coreIdx

/-- Modelled from the claim's words, for comparison with `stripCoreSuffix`:
"otherwise strips only the literal `-Core` token" — remove exactly the token
at its first occurrence and keep the surrounding text. -/
def claimStripToken (model : List Char) : List Char :=
  match memmemFind model coreMarker with
  | none => model
  | some i => model.take i ++ model.drop (i + coreMarker.length)

/-- Round `khz / 1000` (the frequency in milli-GHz) to the nearest integer,
ties to even. -/
def roundMilliGhz (khz : Nat) : Nat :=
  if khz % 1000 > 500 then khz / 1000 + 1
  else if khz % 1000 < 500 then khz / 1000
  else if khz / 1000 % 2 = 0 then khz / 1000 else khz / 1000 + 1

/-- Left-pad a three-digit fractional part. -/
def pad3 (n : Nat) : String :=
  if n < 10 then "00" ++ toString n
  else if n < 100 then "0" ++ toString n
  else toString n

/-- The `{:.3}` rendering of `freq_khz as f64 / 1_000_000.0`, modelled by
exact rational rounding (round half to even) of `khz / 1000` milli-GHz; this
agrees with the `f64` computation except for double-rounding of values within
one binary ulp of a decimal half, and exactly on the inputs used below. -/
def fmtGhz3 (khz : Nat) : String :=
  toString (roundMilliGhz khz / 1000) ++ "." ++ pad3 (roundMilliGhz khz % 1000)

/-- The label assembly of `get_cpu_info`: empty model gives
`"Unknown CPU (<n> cores)"`, otherwise the stripped model plus `" (<n>)"` and,
when a positive max-frequency value was parsed (kHz), `" @ <x.xxx>GHz"`. -/
def cpuLabel (model : List Char) (cores : Nat) (freqKhz : Option Nat) : String :=
  let mn := stripCoreSuffix model
  if mn = [] then "Unknown CPU (" ++ toString cores ++ " cores)"
  else
    let freqStr :=
      match freqKhz with
      | some khz => if 0 < khz then " @ " ++ fmtGhz3 khz ++ "GHz" else ""
      | none => ""
    String.mk mn ++ " (" ++ toString cores ++ ")" ++ freqStr

/-! ## Logo table lookup (`build.rs`, generated `find_logo`) -/

/-- A generated logo table entry; the `ascii_art` and `max_line_length` fields
of the generated struct are not consulted by `find_logo` and are omitted. -/
structure Logo where
  name : List Char
  is_wildcard : Bool
deriving DecidableEq, Inhabited, Repr

/-- Rust `str::cmp`: lexicographic comparison (UTF-8 byte order coincides with
code-point order, which is what `<` on `Char` compares). -/
def compareChars : List Char → List Char → Ordering
  | [], [] => .eq
  | [], _ :: _ => .lt
  | _ :: _, [] => .gt
  | a :: as, b :: bs =>
    if a < b then .lt else if b < a then .gt else compareChars as bs

/-- The comparator passed to `binary_search_by`: wildcard entries compare as
`Greater` so the search never lands on them, others by `name.cmp(distro)`. -/
def logoCmp (logos : List Logo) (target : List Char) (i : Nat) : Ordering :=
  if (logos.getD i default).is_wildcard then .gt
  else compareChars (logos.getD i default).name target

/-- The loop of the branchless `slice::binary_search_by` of the Rust standard
library: `while size > 1 { let half = size / 2; let mid = base + half;
base = if f(mid) == Greater { base } else { mid }; size -= half; }`.
Fuel `n` suffices since `size` shrinks every iteration. -/
def binarySearchLoop (f : Nat → Ordering) (fuel base size : Nat) : Nat :=
  match fuel with
  | 0 => base
  | fu + 1 =>
    if 1 < size then
      binarySearchLoop f fu
        (if f (base + size / 2) = .gt then base else base + size / 2)
        (size - size / 2)
    else base

/-- `slice::binary_search_by` over indices `0..n`: runs the loop from
`(base, size) = (0, n)` and succeeds iff the final probe compares `Equal`.
The `Err` insertion index is not used by `find_logo` and is dropped. -/
def binarySearchBy (n : Nat) (f : Nat → Ordering) : Option Nat :=
  if n = 0 then none
  else if f (binarySearchLoop f n 0 n) = .eq then some (binarySearchLoop f n 0 n)
  else none

/-- `find_logo` from the code generated by build.rs: binary search for an
exact non-wildcard match (wildcards comparing `Greater`), else a linear scan
for the first wildcard entry whose name is a string-prefix of the
identifier. -/
def find_logo (logos : List Logo) (distro : List Char) : Option Logo :=
  match binarySearchBy logos.length (logoCmp logos distro) with
  | some idx => some (logos.getD idx default)
  | none => logos.find? (fun lg => lg.is_wildcard && lg.name.isPrefixOf distro)

/-! ## Compositor (`src/main.rs` render loop, `build.rs` max line length) -/

/-- Split a character list at the first `'\n'`; returns the piece before it
and, when a newline was present, the remainder after it. -/
def breakNl : List Char → List Char × Option (List Char)
  | [] => ([], none)
  | c :: r =>
    if c = '\n' then ([], some r)
    else
      let p := breakNl r
      (c :: p.1, p.2)

/-- Strip one line-terminating `'\r'` (the `\r\n` form recognised by Rust
`str::lines`). -/
def stripCR (l : List Char) : List Char :=
  if l.getLast? = some '\r' then l.dropLast else l

/-- Fuel-driven worker for `rustLines`. -/
def rustLinesF : Nat → List Char → List (List Char)
  | 0, _ => []
  | _, [] => []
  | f + 1, s =>
    match breakNl s with
    | (line, some rest) => stripCR line :: rustLinesF f rest
    | (line, none) => [line]

/-- Rust `str::lines`: split on `'\n'`, recognising `"\r\n"`, with no empty
trailing line for a terminal newline. -/
def rustLines (s : List Char) : List (List Char) :=
  rustLinesF (s.length + 1) s

/-- If the input starts with a `${c<digits>}` colour placeholder, return the
remainder after it. -/
def placeholderSplit : List Char → Option (List Char)
  | '$' :: '{' :: 'c' :: r =>
    let ds := r.takeWhile isDigitCh
    if ds ≠ [] then
      match r.drop ds.length with
      | '}' :: rest => some rest
      | _ => none
    else none
  | _ => none

/-- Fuel-driven worker for `stripPlaceholders` (leftmost an-overlapping scan,
as `Regex::replace_all` with pattern `\$\{c\d+\}`). -/
def stripPlaceholdersF : Nat → List Char → List Char
  | 0, l => l
  | _, [] => []
  | f + 1, c :: r =>
    match placeholderSplit (c :: r) with
    | some rest => stripPlaceholdersF f rest
    | none => c :: stripPlaceholdersF f r

/-- Remove every `${c<digits>}` colour placeholder. -/
def stripPlaceholders (l : List Char) : List Char :=
  stripPlaceholdersF (l.length + 1) l

/-- `calculate_max_line_length` from build.rs: per line, remove the colour
placeholders and count the remaining characters; maximum over lines
(`unwrap_or(0)`). -/
def calculate_max_line_length (s : List Char) : Nat :=
  ((rustLines s).map (fun l => (stripPlaceholders l).length)).foldr max 0

/-- The render loop's width:
`logo_lines.iter().map(|line| line.len()).max().unwrap_or(0)` — the raw length
of each line (the logo is ASCII, so bytes and chars coincide). -/
def logoWidth (logoLines : List (List Char)) : Nat :=
  (logoLines.map List.length).foldr max 0

/-- The `{:width$}` padding of a (left-aligned) string: fill with spaces up to
`w` columns, never truncating. -/
def padRight (l : List Char) (w : Nat) : List Char :=
  l ++ List.replicate (w - l.length) ' '

/-- One output row of the render loop in main.rs:
`println!("{:width$}{:padding$}{}", logo_line, "", info_line, …)` with
`padding = 2`, and `""` for an exhausted column. -/
def renderRow (logoLines infoLines : List (List Char)) (i : Nat) : List Char :=
  padRight (logoLines.getD i []) (logoWidth logoLines) ++
    List.replicate 2 ' ' ++ infoLines.getD i []

/-- Modelled from the spec: the Compositor's visible-length scanner — a
two-state scan toggling "inside escape sequence" on the escape introducer
(ESC, code 27) and closing on the terminator `'m'`, counting only characters
outside an active sequence. -/
def specVisibleLenAux : Bool → List Char → Nat
  | _, [] => 0
  | false, c :: r =>
    if c.toNat = 27 then specVisibleLenAux true r
    else 1 + specVisibleLenAux false r
  | true, c :: r =>
    if c = 'm' then specVisibleLenAux false r else specVisibleLenAux true r

/-- Modelled from the spec: visible length of a line, escape sequences never
counted. -/
def specVisibleLen (l : List Char) : Nat := specVisibleLenAux false l

/-! ## Worker joins (`src/shell.rs`, `src/theme.rs`)

A finished worker thread is modelled by `Except Unit α`: `.ok` is a normal
result delivered through the join handle, `.error` a worker that panicked. -/

/-- The shell basename computed in `join_version_thread`'s fallback:
`shell_path.rfind('/')` and slice after it, else the whole path. -/
def shellBaseName (shell_path : List Char) : List Char :=
  match rlastIdx shell_path '/' with
  | some idx => shell_path.drop (idx + 1)
  | none => shell_path

/-- `join_version_thread` from shell.rs: `handle.join().unwrap_or_else(…)`
substituting the bare shell executable name on a panicked worker. -/
def join_version_thread (res : Except Unit (List Char))
    (shell_path : List Char) : List Char :=
  match res with
  | .ok s => s
  | .error _ => shellBaseName shell_path

/-- `join_theme_detection_thread` from theme.rs: a panicked worker yields
"Unknown". -/
def join_theme_detection_thread (res : Except Unit (List Char)) : List Char :=
  match res with
  | .ok t => t
  | .error _ => "Unknown".data

/-- `join_icon_detection_thread` from theme.rs: a panicked worker yields
"Unknown". -/
def join_icon_detection_thread (res : Except Unit (List Char)) : List Char :=
  match res with
  | .ok t => t
  | .error _ => "Unknown".data

/-! ## Concrete inputs used by the claim theorems -/

/-- The meminfo-shaped buffer of the spec's memory-formula example. -/
def meminfoExample : List Nat :=
  strBytes "MemTotal: 16000000 kB\nMemFree: 8000000 kB\nBuffers: 200000 kB\nCached: 1000000 kB\nSReclaimable: 300000 kB\nShmem: 500000 kB\n"

/-- A buffer where `MemAvailable:` precedes the other fields. -/
def meminfoAvailExample : List Nat :=
  strBytes "MemAvailable: 6000000 kB\nMemTotal: 16000000 kB\nMemFree: 8000000 kB\n"

/-- A buffer whose free figure exceeds its total. -/
def meminfoClampExample : List Nat :=
  strBytes "MemTotal: 5 kB\nMemFree: 9 kB\n"

/-- An os-release buffer whose first line's key `PRETTY_NAME=` contains the
label `NAME=` as a substring, ahead of the real `NAME=` line. -/
def osrelExample : List Nat := strBytes "PRETTY_NAME=X\nNAME=Y\n"

/-- An art line whose tail is the ANSI colour sequence ESC `[31m`. -/
def escLine : List Char :=
  'a' :: 'b' :: Char.ofNat 27 :: '[' :: '3' :: '1' :: 'm' :: []

/-- A sorted logo table with a wildcard entry between two non-wildcard
entries ("A" < "C" < "Ca" in `str::cmp` order). -/
def logoTableCx : List Logo :=
  [⟨"A".data, false⟩, ⟨"C".data, true⟩, ⟨"Ca".data, false⟩]

/-! ## Helper lemmas -/

theorem nibble_land : ∀ a, a < 16 → ∀ b, b < 16 →
    (a * 16 + b) &&& 240 = a * 16 ∧ (a * 16 + b) &&& 15 = b := by decide

theorem compareChars_self : ∀ l : List Char, compareChars l l = .eq := by
  intro l
  induction l with
  | nil => rfl
  | cons a as ih => simp [compareChars, ih]

theorem compareChars_eq_iff : ∀ a b : List Char, compareChars a b = .eq → a = b := by
  intro a
  induction a with
  | nil => intro b h; cases b with
    | nil => rfl
    | cons x xs => simp [compareChars] at h
  | cons x xs ih =>
    intro b h
    cases b with
    | nil => simp [compareChars] at h
    | cons y ys =>
      by_cases hxy : x < y
      · simp [compareChars, hxy] at h
      · by_cases hyx : y < x
        · simp [compareChars, hxy, hyx] at h
        · have hx : x = y := le_antisymm (not_lt.mp hyx) (not_lt.mp hxy)
          simp [compareChars, hxy, hyx] at h
          rw [hx, ih ys h]

theorem compareChars_swap : ∀ a b : List Char,
    compareChars a b = .lt → compareChars b a = .gt := by
  intro a
  induction a with
  | nil => intro b h; cases b with
    | nil => simp [compareChars] at h
    | cons y ys => simp [compareChars]
  | cons x xs ih =>
    intro b h
    cases b with
    | nil => simp [compareChars] at h
    | cons y ys =>
      by_cases hxy : x < y
      · have hyx : ¬ y < x := fun hc => absurd (lt_trans hxy hc) (lt_irrefl x)
        simp [compareChars, hxy, hyx]
      · by_cases hyx : y < x
        · simp [compareChars, hxy, hyx] at h
        · simp [compareChars, hxy, hyx] at h ⊢
          exact ih ys h

theorem rlastIdx_eq_none {α : Type} [DecidableEq α] (c : α) :
    ∀ l : List α, c ∉ l → rlastIdx l c = none := by
  intro l
  induction l with
  | nil => intro _; rfl
  | cons a r ih =>
    intro h
    have hr : c ∉ r := fun hc => h (List.mem_cons_of_mem a hc)
    have hac : ¬ a = c := fun hc => h (hc ▸ List.mem_cons_self a r)
    simp [rlastIdx, ih hr, hac]

theorem rlastIdx_append_cons {α : Type} [DecidableEq α] (c : α) (ds : List α)
    (h : c ∉ ds) : ∀ xs : List α, rlastIdx (xs ++ c :: ds) c = some xs.length := by
  intro xs
  induction xs with
  | nil => simp [rlastIdx, rlastIdx_eq_none c ds h]
  | cons a r ih => simp [rlastIdx, ih]

theorem memmemFrom_spec {α : Type} [DecidableEq α] (data pat : List α) :
    ∀ fuel i j, memmemFrom data pat i fuel = some j →
      i ≤ j ∧ matchAtPos data pat j = true ∧
        ∀ k, i ≤ k → k < j → matchAtPos data pat k = false := by
  intro fuel
  induction fuel with
  | zero => intro i j h; simp [memmemFrom] at h
  | succ f ih =>
    intro i j h
    rw [memmemFrom] at h
    by_cases hb : i + pat.length ≤ data.length
    · rw [if_pos hb] at h
      by_cases hm : matchAtPos data pat i
      · rw [if_pos hm] at h
        obtain rfl : i = j := Option.some.inj h
        exact ⟨le_refl i, hm, fun k hk1 hk2 => absurd (lt_of_le_of_lt hk1 hk2) (lt_irrefl i)⟩
      · rw [if_neg hm] at h
        obtain ⟨h1, h2, h3⟩ := ih (i + 1) j h
        refine ⟨by omega, h2, ?_⟩
        intro k hk1 hk2
        rcases Nat.eq_or_lt_of_le hk1 with rfl | hlt
        · exact eq_false_of_ne_true hm
        · exact h3 k hlt hk2
    · rw [if_neg hb] at h
      exact absurd h (by simp)

theorem binarySearchLoop_ge (f : Nat → Ordering) :
    ∀ fuel base size, base ≤ binarySearchLoop f fuel base size := by
  intro fuel
  induction fuel with
  | zero => intro base size; exact le_refl base
  | succ fu ih =>
    intro base size
    rw [binarySearchLoop]
    by_cases hs : 1 < size
    · rw [if_pos hs]
      by_cases hg : f (base + size / 2) = .gt
      · rw [if_pos hg]; exact ih base (size - size / 2)
      · rw [if_neg hg]
        exact le_trans (by omega) (ih (base + size / 2) (size - size / 2))
    · rw [if_neg hs]

theorem binarySearchLoop_lt (f : Nat → Ordering) :
    ∀ fuel base size, 1 ≤ size →
      binarySearchLoop f fuel base size < base + size := by
  intro fuel
  induction fuel with
  | zero => intro base size hs; rw [binarySearchLoop]; omega
  | succ fu ih =>
    intro base size hs
    rw [binarySearchLoop]
    by_cases h1 : 1 < size
    · rw [if_pos h1]
      by_cases hg : f (base + size / 2) = .gt
      · rw [if_pos hg]
        exact lt_of_lt_of_le (ih base (size - size / 2) (by omega)) (by omega)
      · rw [if_neg hg]
        exact lt_of_lt_of_le (ih (base + size / 2) (size - size / 2) (by omega)) (by omega)
    · rw [if_neg h1]; omega

theorem binarySearchLoop_finds (f : Nat → Ordering) (n i : Nat)
    (Hf : ∀ j, j < n → (j < i → f j = .lt) ∧ (j = i → f j = .eq) ∧ (i < j → f j = .gt)) :
    ∀ fuel base size, 1 ≤ size → size ≤ fuel + 1 → base + size ≤ n →
      base ≤ i → i < base + size → binarySearchLoop f fuel base size = i := by
  intro fuel
  induction fuel with
  | zero =>
    intro base size h1 h2 _ h4 h5
    rw [binarySearchLoop]
    omega
  | succ fu ih =>
    intro base size h1 h2 h3 h4 h5
    rw [binarySearchLoop]
    by_cases hs : 1 < size
    · rw [if_pos hs]
      have hmid : base + size / 2 < n := by omega
      by_cases hg : f (base + size / 2) = .gt
      · rw [if_pos hg]
        have himid : i < base + size / 2 := by
          rcases Nat.lt_trichotomy (base + size / 2) i with hlt | heq | hgt
          · rw [(Hf _ hmid).1 hlt] at hg; cases hg
          · rw [(Hf _ hmid).2.1 heq] at hg; cases hg
          · exact hgt
        exact ih base (size - size / 2) (by omega) (by omega) (by omega) h4 (by omega)
      · rw [if_neg hg]
        have himid : base + size / 2 ≤ i := by
          by_contra hc
          exact hg ((Hf _ hmid).2.2 (by omega))
        exact ih (base + size / 2) (size - size / 2) (by omega) (by omega) (by omega)
          himid (by omega)
    · rw [if_neg hs]
      omega

theorem find?_eq_some_getD {α : Type} [Inhabited α] (p : α → Bool) :
    ∀ (l : List α) (j : Nat), j < l.length → p (l.getD j default) = true →
      (∀ k, k < j → p (l.getD k default) = false) →
      l.find? p = some (l.getD j default) := by
  intro l
  induction l with
  | nil => intro j hj; simp at hj
  | cons a t ih =>
    intro j hj hp hk
    cases j with
    | zero =>
      simp only [List.getD_cons_zero] at hp ⊢
      rw [List.find?_cons_of_pos _ hp]
    | succ j =>
      have ha : p a = false := by
        have := hk 0 (Nat.succ_pos j)
        simpa using this
      rw [List.find?_cons_of_neg _ (by simp [ha])]
      simp only [List.getD_cons_succ]
      exact ih j (by simpa using hj) (by simpa using hp)
        (fun k hkj => by simpa using hk (k + 1) (by omega))

theorem find?_eq_none_getD {α : Type} [Inhabited α] (p : α → Bool) :
    ∀ l : List α, (∀ k, k < l.length → p (l.getD k default) = false) →
      l.find? p = none := by
  intro l
  induction l with
  | nil => intro _; rfl
  | cons a t ih =>
    intro hk
    have ha : p a = false := by simpa using hk 0 (by simp)
    rw [List.find?_cons_of_neg _ (by simp [ha])]
    exact ih (fun k hkt => by simpa using hk (k + 1) (by simpa using Nat.succ_lt_succ hkt))

theorem length_getD_le_logoWidth :
    ∀ (L : List (List Char)) (i : Nat), (L.getD i []).length ≤ logoWidth L := by
  intro L
  induction L with
  | nil => intro i; simp [logoWidth]
  | cons a t ih =>
    intro i
    cases i with
    | zero =>
      simp only [List.getD_cons_zero, logoWidth, List.map_cons, List.foldr_cons]
      exact le_max_left _ _
    | succ i =>
      simp only [List.getD_cons_succ, logoWidth, List.map_cons, List.foldr_cons]
      exact le_trans (ih i) (le_max_right _ _)

theorem padRight_length (l : List Char) (w : Nat) (h : l.length ≤ w) :
    (padRight l w).length = w := by
  simp [padRight]
  omega

set_option maxRecDepth 100000

/-! ## Claim theorems -/

/-- Claim C1, counterexample: on the spec's own example buffer (total=16000000,
free=8000000, buffers=200000, cached=1000000, reclaimable=300000, shmem=500000,
in kB), `parse_meminfo` does not return the claimed
`(total − free − buffers − cached − reclaimable + shared) × 1024 = 7168000000`
bytes of used memory; it returns `(total − free) × 1024` instead. -/
theorem meminfo_spec_formula_counterexample :
    parse_meminfo meminfoExample = ((16000000 - 8000000) * 1024, 16000000 * 1024) ∧
    (parse_meminfo meminfoExample).1 ≠
      (16000000 - 8000000 - 200000 - 1000000 - 300000 + 500000) * 1024 := by
  refine ⟨by decide, by decide⟩

/-- Claim C1, amended: the scanner reads only `MemTotal:`, `MemAvailable:` and
`MemFree:` and computes `used = total − free′` (clamped at 0) where `free′` is
`MemAvailable` when it was parsed before the early exit, else `MemFree`; the
buffers/cached/reclaimable/shmem fields play no role.  On the spec's example
buffer this yields `(16000000 − 8000000) × 1024`; with `MemAvailable: 6000000`
listed first it yields `(16000000 − 6000000) × 1024`. -/
theorem meminfo_used_amended :
    parse_meminfo meminfoExample = ((16000000 - 8000000) * 1024, 16000000 * 1024) ∧
    parse_meminfo meminfoAvailExample =
      ((16000000 - 6000000) * 1024, 16000000 * 1024) := by
  refine ⟨by decide, by decide⟩

/-- Claim C2: a 128-byte buffer starting with the magic header whose byte 56
holds the low byte of `h`, byte 57 the low byte of `v`, and byte 58 the high
nibbles of `h` (upper) and `v` (lower), decodes to exactly `(h, v)` for all
`h, v ∈ [1, 4095]`. -/
theorem edid_roundtrip (data : List Nat) (h v : Nat)
    (hlen : 128 ≤ data.length) (hhead : data.take 8 = EDID_HEADER)
    (h56 : byteAt data 56 = h % 256) (h57 : byteAt data 57 = v % 256)
    (h58 : byteAt data 58 = (h / 256) * 16 + v / 256)
    (h1 : 1 ≤ h) (h2 : h ≤ 4095) (v1 : 1 ≤ v) (v2 : v ≤ 4095) :
    parse_edid_resolution data = some (h, v) := by
  have hh : h / 256 < 16 := by omega
  have hv : v / 256 < 16 := by omega
  have hl := nibble_land (h / 256) hh (v / 256) hv
  have eH : edidH data = h := by
    rw [edidH, h58, h56, hl.1, Nat.shiftLeft_eq]
    have e4 : (2 : Nat) ^ 4 = 16 := by norm_num
    rw [e4]
    omega
  have eV : edidV data = v := by
    rw [edidV, h58, h57, hl.2, Nat.shiftLeft_eq]
    have e8 : (2 : Nat) ^ 8 = 256 := by norm_num
    rw [e8]
    omega
  have hc1 : ¬(data.length < EDID_SIZE ∨ data.take 8 ≠ EDID_HEADER) := by
    push_neg
    exact ⟨by rw [EDID_SIZE]; omega, hhead⟩
  rw [parse_edid_resolution, if_neg hc1, eH, eV, if_pos ⟨h1, v1⟩]

/-- Claim C2, witness at `(h, v) = (1920, 1080)`. -/
theorem edid_roundtrip_witness :
    parse_edid_resolution (encodeEdid 1920 1080) = some (1920, 1080) :=
  edid_roundtrip (encodeEdid 1920 1080) 1920 1080 (by decide) (by decide)
    (by decide) (by decide) (by decide) (by decide) (by decide) (by decide)
    (by decide)

/-- Claim C3: the EDID decoder is a total function that returns `none` on
every buffer shorter than 128 bytes or not starting with the magic header,
and any returned resolution has both components nonzero. -/
theorem edid_total_guards (edid : List Nat) :
    ((edid.length < 128 ∨ edid.take 8 ≠ EDID_HEADER) →
      parse_edid_resolution edid = none) ∧
    (∀ h v, parse_edid_resolution edid = some (h, v) → 0 < h ∧ 0 < v) := by
  constructor
  · intro hc
    rw [parse_edid_resolution, if_pos]
    exact hc
  · intro h v hp
    rw [parse_edid_resolution] at hp
    by_cases hc1 : edid.length < EDID_SIZE ∨ edid.take 8 ≠ EDID_HEADER
    · rw [if_pos hc1] at hp
      exact absurd hp (by simp)
    · rw [if_neg hc1] at hp
      by_cases hc2 : 0 < edidH edid ∧ 0 < edidV edid
      · rw [if_pos hc2] at hp
        simp only [Option.some.injEq, Prod.mk.injEq] at hp
        obtain ⟨rfl, rfl⟩ := hp
        exact hc2
      · rw [if_neg hc2] at hp
        exact absurd hp (by simp)

/-- Claim C3, witness: the empty buffer decodes to `none` through the length
guard, and a successfully decoded buffer has nonzero components. -/
theorem edid_total_guards_witness :
    parse_edid_resolution [] = none ∧ (0 < 1024 ∧ 0 < 768) :=
  ⟨(edid_total_guards []).1 (Or.inl (by decide)),
   (edid_total_guards (encodeEdid 1024 768)).2 1024 768 (by decide)⟩

/-- Claim C10: for every input buffer, `parse_meminfo` returns
`(used, total)` with `used ≤ total`, and `used` is clamped to 0 whenever the
selected free/available figure is at least the total. -/
theorem meminfo_used_le_total (data : List Nat) :
    (parse_meminfo data).1 ≤ (parse_meminfo data).2 ∧
    ((meminfoScan data).1 ≤
        (if 0 < (meminfoScan data).2.2 then (meminfoScan data).2.2
         else (meminfoScan data).2.1) →
      (parse_meminfo data).1 = 0) := by
  rcases hs : meminfoScan data with ⟨t, f, a⟩
  simp only [parse_meminfo, hs]
  constructor
  · split_ifs <;> omega
  · intro hle
    split_ifs at hle ⊢ <;> omega

/-- Claim C10, witness: a buffer whose free field exceeds its total clamps
used memory to 0. -/
theorem meminfo_used_le_total_witness :
    (parse_meminfo meminfoClampExample).1 = 0 :=
  (meminfo_used_le_total meminfoClampExample).2 (by decide)

/-- Claim C8, counterexample: in the buffer `"PRETTY_NAME=X\nNAME=Y\n"` the
`NAME=` label matches at position 7 — inside the first line's key
`PRETTY_NAME=`, not at a line start — and `get_distribution_name` therefore
returns the `PRETTY_NAME` value `X` instead of the `NAME=` line's value `Y`. -/
theorem scanner_line_start_counterexample :
    memmemFind osrelExample nameTag = some 7 ∧
    ¬ lineStart osrelExample 7 ∧
    osReleaseName osrelExample = some (strBytes "X") ∧
    strBytes "X" ≠ strBytes "Y" := by
  refine ⟨by decide, by decide, by decide, by decide⟩

/-- Claim C8, amended: the os-release scanner matches `NAME=` at the first
occurrence of the pattern anywhere in the buffer, with no line-start
restriction, so the label can match inside a longer key such as
`PRETTY_NAME=` when that key appears first. -/
theorem scanner_first_occurrence_amended :
    (∀ (data : List Nat) (i : Nat), memmemFind data nameTag = some i →
        matchAtPos data nameTag i = true ∧
        ∀ k, k < i → matchAtPos data nameTag k = false) ∧
    osReleaseName osrelExample = some (strBytes "X") := by
  constructor
  · intro data i hfind
    obtain ⟨_, h2, h3⟩ := memmemFrom_spec data nameTag (data.length + 1) 0 i hfind
    exact ⟨h2, fun k hk => h3 k (Nat.zero_le k) hk⟩
  · decide

/-- Claim C8, amended witness: the first-occurrence characterisation applied
to the concrete buffer, giving the in-key match at 7 and no earlier match. -/
theorem scanner_first_occurrence_amended_witness :
    matchAtPos osrelExample nameTag 7 = true ∧
    matchAtPos osrelExample nameTag 3 = false :=
  ⟨(scanner_first_occurrence_amended.1 osrelExample 7 (by decide)).1,
   (scanner_first_occurrence_amended.1 osrelExample 7 (by decide)).2 3 (by decide)⟩

/-- Claim C6, counterexample: the render loop of main.rs measures an art line
by its raw length — a line of 7 characters ending in the 5-character sequence
ESC `[31m` is measured as 7, not as the escape-excluded visible length 2, and
the info column is placed accordingly at raw length + gap. -/
theorem compositor_visible_length_counterexample :
    logoWidth [escLine] = 7 ∧
    specVisibleLen escLine = 2 ∧
    logoWidth [escLine] ≠ specVisibleLen escLine ∧
    (renderRow [escLine] [['I']] 0).length = 7 + 2 + 1 := by
  refine ⟨by decide, by decide, by decide, by decide⟩

/-- Claim C6, amended: the compositor pads every row so that the info column
starts exactly at `logoWidth + 2` columns — where `logoWidth` is the maximum
raw line length, escape bytes included — independently of the row; the
escape-markup-excluding measurement exists only in the build-time
`calculate_max_line_length`, which strips the `${c<digits>}` colour
placeholders before counting. -/
theorem compositor_padding_amended :
    (∀ (L I : List (List Char)) (i : Nat),
        (renderRow L I i).drop (logoWidth L + 2) = I.getD i [] ∧
        (renderRow L I i).length = logoWidth L + 2 + (I.getD i []).length) ∧
    calculate_max_line_length "${c1}abcd\n${c12}ef".data = 4 ∧
    stripPlaceholders "${c1}abcd".data = "abcd".data := by
  refine ⟨?_, by decide, by decide⟩
  intro L I i
  have hle := length_getD_le_logoWidth L i
  have hpadlen : (padRight (L.getD i []) (logoWidth L) ++
      List.replicate 2 ' ').length = logoWidth L + 2 := by
    rw [List.length_append, padRight_length _ _ hle, List.length_replicate]
  constructor
  · rw [renderRow, ← hpadlen, List.drop_left]
  · rw [renderRow, List.length_append, hpadlen]

/-- Claim C9: a worker task that panics is substituted at join with its
fallback value — the bare shell executable name for the shell-version worker,
the "Unknown" sentinel for the theme and icon workers — while a normal result
is passed through, so assembling the snapshot always completes.  A finished
worker is modelled as `Except Unit α` with `.error` standing for a panic. -/
theorem worker_join_fallback :
    (∀ sp : List Char, join_version_thread (Except.error ()) sp = shellBaseName sp) ∧
    (∀ s sp : List Char, join_version_thread (Except.ok s) sp = s) ∧
    join_theme_detection_thread (Except.error ()) = "Unknown".data ∧
    (∀ t, join_theme_detection_thread (Except.ok t) = t) ∧
    join_icon_detection_thread (Except.error ()) = "Unknown".data ∧
    (∀ t, join_icon_detection_thread (Except.ok t) = t) ∧
    join_version_thread (Except.error ()) "/usr/bin/zsh".data = "zsh".data := by
  refine ⟨fun _ => rfl, fun _ _ => rfl, rfl, fun _ => rfl, rfl, fun _ => rfl,
    by decide⟩

/-- Claim C7, counterexample: on the model string `"Intel-Core i7"` (marker
present, no space-and-numeric run before it) the code truncates at the marker
and drops the following text, producing `"Intel"`, whereas stripping only the
literal `-Core` token as claimed would produce `"Intel i7"`. -/
theorem cpu_strip_counterexample :
    stripCoreSuffix "Intel-Core i7".data = "Intel".data ∧
    claimStripToken "Intel-Core i7".data = "Intel i7".data ∧
    stripCoreSuffix "Intel-Core i7".data ≠ claimStripToken "Intel-Core i7".data := by
  refine ⟨by decide, by decide, by decide⟩

/-- Claim C7, amended: the label builder truncates the model at the
core-count pattern — the result is always a prefix of the trimmed model.
When a space, a non-empty purely numeric run and the first `-Core` marker end
the string, it truncates at that space; otherwise it truncates at the marker
(dropping the marker and everything after it).  The label appends
`" (<cores>)"` and, for a positive readable max frequency, an
`" @ <kHz/1e6 to three decimals>GHz"` suffix. -/
theorem cpu_label_amended :
    (∀ (base ds : List Char), ds ≠ [] → ds.all isDigitCh = true → ' ' ∉ ds →
        memmemFind (base ++ ' ' :: (ds ++ coreMarker)) coreMarker =
          some (base.length + 1 + ds.length) →
        stripCoreSuffix (base ++ ' ' :: (ds ++ coreMarker)) = base) ∧
    (∀ model : List Char, stripCoreSuffix model <+: model) ∧
    stripCoreSuffix "AMD EPYC 7773X 64-Core Processor".data = "AMD EPYC 7773X".data ∧
    cpuLabel "AMD Ryzen 7 7800X3D 8-Core".data 16 (some 4500000) =
      "AMD Ryzen 7 7800X3D (16) @ 4.500GHz" ∧
    cpuLabel [] 8 none = "Unknown CPU (8 cores)" := by
  refine ⟨?_, ?_, by decide, by decide, by decide⟩
  · intro base ds hne hdig hnsp hfind
    have hmodel : base ++ ' ' :: (ds ++ coreMarker) = (base ++ ' ' :: ds) ++ coreMarker := by
      simp
    have hlen2 : (base ++ ' ' :: ds).length = base.length + 1 + ds.length := by
      simp
      omega
    have htake : (base ++ ' ' :: (ds ++ coreMarker)).take (base.length + 1 + ds.length) =
        base ++ ' ' :: ds := by
      rw [hmodel, ← hlen2, List.take_left]
    have hrl : rlastIdx (base ++ ' ' :: ds) ' ' = some base.length :=
      rlastIdx_append_cons ' ' ds hnsp base
    have hsplit : base ++ ' ' :: ds = (base ++ [' ']) ++ ds := by simp
    have hdrop : (base ++ ' ' :: ds).drop (base.length + 1) = ds := by
      rw [hsplit, show base.length + 1 = (base ++ [' ']).length by simp,
        List.drop_left]
    have htakeb : (base ++ ' ' :: (ds ++ coreMarker)).take base.length = base := by
      rw [show base ++ ' ' :: (ds ++ coreMarker) = base ++ (' ' :: (ds ++ coreMarker)) from rfl,
        List.take_left' rfl]
    rw [stripCoreSuffix, hfind]
    simp only [htake, hrl, hdrop]
    rw [if_pos ⟨hne, hdig⟩, htakeb]
  · intro model
    rw [stripCoreSuffix]
    cases hm : memmemFind model coreMarker with
    | none => exact List.prefix_refl model
    | some coreIdx =>
      dsimp only
      cases hr : rlastIdx (model.take coreIdx) ' ' with
      | none => exact List.take_prefix _ _
      | some lastSpace =>
        dsimp only
        split_ifs
        · exact List.take_prefix _ _
        · exact List.take_prefix _ _

/-- Claim C7, amended witness: the trailing-pattern truncation applied to
`"AMD Ryzen 7 7800X3D 8-Core"`. -/
theorem cpu_label_amended_witness :
    stripCoreSuffix "AMD Ryzen 7 7800X3D 8-Core".data = "AMD Ryzen 7 7800X3D".data := by
  have he : "AMD Ryzen 7 7800X3D 8-Core".data =
      "AMD Ryzen 7 7800X3D".data ++ ' ' :: ("8".data ++ coreMarker) := by decide
  rw [he]
  exact cpu_label_amended.1 "AMD Ryzen 7 7800X3D".data "8".data (by decide)
    (by decide) (by decide) (by decide)

/-- Claim C4, counterexample: in the name-sorted table
`[("A", exact), ("C", wildcard), ("Ca", exact)]` — wildcard interspersed as
the construction allows — looking up the exact non-wildcard name `"Ca"` does
not return its entry: the binary search probes the wildcard (which compares
`Greater`), discards the upper half, and the fallback returns the wildcard
prefix entry `("C", wildcard)` instead. -/
theorem find_logo_exact_counterexample :
    compareChars "A".data "C".data = .lt ∧
    compareChars "C".data "Ca".data = .lt ∧
    Logo.mk "Ca".data false ∈ logoTableCx ∧
    find_logo logoTableCx "Ca".data = some ⟨"C".data, true⟩ ∧
    find_logo logoTableCx "Ca".data ≠ some ⟨"Ca".data, false⟩ := by
  refine ⟨by decide, by decide, by decide, by decide, by decide⟩

/-- Claim C4, amended: exact lookup of a non-wildcard entry's name returns
that entry provided the table is strictly name-sorted and no wildcard entry
precedes the entry; with a wildcard entry placed before it the binary search
can miss the exact match (see the counterexample), so exact-match precedence
is not independent of wildcard placement. -/
theorem find_logo_exact_amended (logos : List Logo) (target : List Char) (i : Nat)
    (hi : i < logos.length)
    (hw : (logos.getD i default).is_wildcard = false)
    (ht : (logos.getD i default).name = target)
    (hsorted : ∀ k, k < logos.length → ∀ j, j < k →
        compareChars (logos.getD j default).name (logos.getD k default).name = .lt)
    (hnw : ∀ j, j < i → (logos.getD j default).is_wildcard = false) :
    find_logo logos target = some (logos.getD i default) := by
  have Hf : ∀ j, j < logos.length →
      (j < i → logoCmp logos target j = .lt) ∧
      (j = i → logoCmp logos target j = .eq) ∧
      (i < j → logoCmp logos target j = .gt) := by
    intro j hj
    refine ⟨?_, ?_, ?_⟩
    · intro hji
      rw [logoCmp, if_neg (by rw [hnw j hji]; simp), ← ht]
      exact hsorted i hi j hji
    · rintro rfl
      rw [logoCmp, if_neg (by rw [hw]; simp), ht, compareChars_self]
    · intro hij
      by_cases hwj : (logos.getD j default).is_wildcard
      · rw [logoCmp, if_pos hwj]
      · rw [logoCmp, if_neg hwj, ← ht]
        exact compareChars_swap _ _ (hsorted j hj i hij)
  have hloop : binarySearchLoop (logoCmp logos target) logos.length 0 logos.length = i :=
    binarySearchLoop_finds (logoCmp logos target) logos.length i Hf logos.length 0
      logos.length (by omega) (by omega) (by omega) (by omega) (by omega)
  rw [find_logo, binarySearchBy, if_neg (by omega : ¬ logos.length = 0), hloop,
    if_pos ((Hf i hi).2.1 rfl)]

/-- Claim C4, amended witness: lookup of `"B"` in the table
`[("A", exact), ("B", exact), ("U", wildcard)]`, where no wildcard precedes
the match. -/
theorem find_logo_exact_amended_witness :
    find_logo [Logo.mk "A".data false, Logo.mk "B".data false,
      Logo.mk "U".data true] "B".data = some ⟨"B".data, false⟩ :=
  find_logo_exact_amended
    [Logo.mk "A".data false, Logo.mk "B".data false, Logo.mk "U".data true]
    "B".data 1 (by decide) (by decide) (by decide) (by decide) (by decide)

/-- Claim C5: when no non-wildcard entry's name equals the identifier, the
lookup returns the first wildcard entry (in table order) whose name is a
string-prefix of the identifier, and `none` when no wildcard name is such a
prefix. -/
theorem find_logo_wildcard_fallback (logos : List Logo) (target : List Char)
    (hnoexact : ∀ j, j < logos.length →
        ¬((logos.getD j default).is_wildcard = false ∧
          (logos.getD j default).name = target)) :
    (∀ j, j < logos.length →
        ((logos.getD j default).is_wildcard &&
          (logos.getD j default).name.isPrefixOf target) = true →
        (∀ k, k < j →
          ((logos.getD k default).is_wildcard &&
            (logos.getD k default).name.isPrefixOf target) = false) →
        find_logo logos target = some (logos.getD j default)) ∧
    ((∀ j, j < logos.length →
        ((logos.getD j default).is_wildcard &&
          (logos.getD j default).name.isPrefixOf target) = false) →
      find_logo logos target = none) := by
  have hbs : binarySearchBy logos.length (logoCmp logos target) = none := by
    rw [binarySearchBy]
    by_cases hn : logos.length = 0
    · rw [if_pos hn]
    · rw [if_neg hn]
      have hblt : binarySearchLoop (logoCmp logos target) logos.length 0 logos.length <
          logos.length := by
        have := binarySearchLoop_lt (logoCmp logos target) logos.length 0
          logos.length (by omega)
        omega
      have hneq : logoCmp logos target
          (binarySearchLoop (logoCmp logos target) logos.length 0 logos.length) ≠ .eq := by
        intro heq
        set b := binarySearchLoop (logoCmp logos target) logos.length 0 logos.length with hb
        rw [logoCmp] at heq
        by_cases hwb : (logos.getD b default).is_wildcard
        · rw [if_pos hwb] at heq
          cases heq
        · rw [if_neg hwb] at heq
          have hwb' : (logos.getD b default).is_wildcard = false := by
            simpa using hwb
          exact hnoexact b hblt ⟨hwb', compareChars_eq_iff _ _ heq⟩
      rw [if_neg hneq]
  constructor
  · intro j hj hpj hbefore
    rw [find_logo, hbs]
    exact find?_eq_some_getD _ logos j hj hpj hbefore
  · intro hnone
    rw [find_logo, hbs]
    exact find?_eq_none_getD _ logos hnone

/-- Claim C5, witness: the wildcard entry `"Ubuntu"` matches the identifier
`"Ubuntu-22.04"` by prefix, and an unmatched identifier returns `none`. -/
theorem find_logo_wildcard_fallback_witness :
    find_logo [Logo.mk "Ubuntu".data true] "Ubuntu-22.04".data =
      some ⟨"Ubuntu".data, true⟩ ∧
    find_logo [Logo.mk "Arch".data false] "Gentoo".data = none :=
  ⟨(find_logo_wildcard_fallback [Logo.mk "Ubuntu".data true] "Ubuntu-22.04".data
      (by decide)).1 0 (by decide) (by decide) (fun k hk => absurd hk (by omega)),
   (find_logo_wildcard_fallback [Logo.mk "Arch".data false] "Gentoo".data
      (by decide)).2 (by decide)⟩

end TachiFetch
